import Mathlib

/-!
Verification development for the voice-assistant backend's per-connection
turn orchestrator (`services/backend/routers/ws.py` and
`services/backend/core/session.py`).

Strings are modelled as `List Char` where positional arithmetic matters
(Python `len`/indexing count code points) and as `String` elsewhere, PCM
byte chunks as `List Nat`, and monotonic-clock timestamps as `ℚ` (exact
values of the Python floats involved).  The asynchronous workers are
modelled as the deterministic traces they produce in the run where no
cancellation fires and every channel send succeeds.
-/

namespace WS

/-! ## Python string helpers -/

/-- The whitespace characters Python `str.strip()` removes (the ASCII ones;
the source only ever strips ASCII whitespace produced by the LLM stream). -/
def isSpace (c : Char) : Bool :=
  c = ' ' || c = '\t' || c = '\n' || c = '\r' || c = '\x0b' || c = '\x0c'

/-- Python `str.lstrip()`. -/
def lstrip (s : List Char) : List Char := s.dropWhile isSpace

/-- Python `str.strip()`: drop leading and trailing whitespace. -/
def strip (s : List Char) : List Char :=
  ((lstrip s).reverse.dropWhile isSpace).reverse

/-! ## Segmenter (`run_turn_workflow` constants, `_find_boundary`, `_pop_segment`) -/

/-- `SOFT_MIN_CHARS = 30` (ws.py). -/
def SOFT_MIN_CHARS : Nat := 30

/-- `MIN_CHARS = 70` (ws.py). -/
def MIN_CHARS : Nat := 70

/-- `MAX_CHARS = 260` (ws.py). -/
def MAX_CHARS : Nat := 260

/-- `END_PUNCTS = set("。！？.!?")` (ws.py).  Note: no newline. -/
def END_PUNCTS : List Char := ['。', '！', '？', '.', '!', '?']

/-- Membership in the code's end-of-sentence punctuation set. -/
def isEndPunct (c : Char) : Bool := END_PUNCTS.contains c

/-- First index `i ≥ start` of `buf` whose character satisfies `p`
(`none` when there is no such index). -/
def findFrom (p : Char → Bool) : List Char → Nat → Option Nat
  | [], _ => none
  | c :: cs, 0 => if p c then some 0 else (findFrom p cs 0).map (· + 1)
  | _ :: cs, s + 1 => (findFrom p cs s).map (· + 1)

/-- Embeds `_find_boundary(buf, start)`: the earliest index `≥ start`
holding an end punctuation.  (The Python code takes, over each punctuation
character `p`, the minimum of `buf.find(p, start)`; since it minimises over
the whole set this is exactly the earliest index at or after `start` whose
character lies in the set.) -/
def find_boundary (buf : List Char) (start : Nat) : Option Nat :=
  findFrom isEndPunct buf start

/-- The cut position chosen by `_pop_segment` (ws.py lines 204-241):
`some k` means the code returns `(buf[:k], buf[k:])`, `none` means
`(None, buf)`.  The branch structure mirrors the Python exactly:
1. below `SOFT_MIN_CHARS` never cut;
2. at `≥ MIN_CHARS`, cut just after the earliest boundary at index
   `≥ MIN_CHARS - 1`;
3. otherwise cut just after the earliest boundary at index
   `≥ SOFT_MIN_CHARS - 1` provided the cut stays below `MIN_CHARS`;
4. otherwise hard-cut at `MAX_CHARS` when the buffer reached it;
5. otherwise do not cut. -/
def pop_cut (buf : List Char) : Option Nat :=
  let n := buf.length
  if n < SOFT_MIN_CHARS then none
  else
    match (if MIN_CHARS ≤ n then find_boundary buf (MIN_CHARS - 1) else none) with
    | some i => some (i + 1)
    | none =>
      match find_boundary buf (SOFT_MIN_CHARS - 1) with
      | some i2 =>
        if SOFT_MIN_CHARS ≤ i2 + 1 && i2 + 1 < MIN_CHARS then some (i2 + 1)
        else if MAX_CHARS ≤ n then some MAX_CHARS
        else none
      | none => if MAX_CHARS ≤ n then some MAX_CHARS else none

/-- Embeds `_pop_segment(buf)`: either `(some segment, rest)` with
`segment ++ rest = buf`, or `(none, buf)` when no cut applies. -/
def pop_segment (buf : List Char) : Option (List Char) × List Char :=
  match pop_cut buf with
  | some k => (some (buf.take k), buf.drop k)
  | none => (none, buf)

/-! ### The segmenter as described by the specification (for claim C5).

The spec states the same five-rule procedure but phrases boundary search
as "there exists an end-punctuation at index ≥ …; the earliest such index
wins", and its punctuation set additionally contains the newline. -/

/-- Spec's boundary search: the first index of `buf`, scanned in increasing
order, that is `≥ start` and holds a character satisfying `p`. -/
def earliestFrom (p : Char → Bool) (buf : List Char) (start : Nat) : Option Nat :=
  (List.range buf.length).find? (fun i => decide (start ≤ i) && (buf[i]?.any p))

/-- The spec's end-of-sentence punctuation set: the code's set plus newline. -/
def specEndPunct (c : Char) : Bool := isEndPunct c || c = '\n'

/-- The five-rule pop procedure as worded by the spec, over an arbitrary
end-punctuation predicate `p`. -/
def pop_cut_spec (p : Char → Bool) (buf : List Char) : Option Nat :=
  let n := buf.length
  if n < SOFT_MIN_CHARS then none
  else
    match (if MIN_CHARS ≤ n then earliestFrom p buf (MIN_CHARS - 1) else none) with
    | some i => some (i + 1)
    | none =>
      match earliestFrom p buf (SOFT_MIN_CHARS - 1) with
      | some i2 =>
        if SOFT_MIN_CHARS ≤ i2 + 1 && i2 + 1 < MIN_CHARS then some (i2 + 1)
        else if MAX_CHARS ≤ n then some MAX_CHARS
        else none
      | none => if MAX_CHARS ≤ n then some MAX_CHARS else none

/-- The spec's pop step over punctuation predicate `p`. -/
def pop_segment_spec (p : Char → Bool) (buf : List Char) : Option (List Char) × List Char :=
  match pop_cut_spec p buf with
  | some k => (some (buf.take k), buf.drop k)
  | none => (none, buf)

/-! ## The `llm_worker` segmentation loop (ws.py lines 339-399).

For each non-empty delta the worker appends it to the buffer and pops
segments until `_pop_segment` declines; at end of stream it flushes
`buf.strip()` as a tail segment when non-empty.  (We model the path where
the language decision has been made, i.e. segments are not being held
back; holding them back only defers the same pops.) -/

/-- Pop segments from `buf` until `_pop_segment` returns no segment.
`fuel` bounds the number of pops; `drainSegments` supplies `buf.length`,
which always suffices because each pop removes at least one character
(`pop_cut_pos` below, with adequacy shown in `drainAux_complete`). -/
def drainAux : Nat → List Char → List (List Char) × List Char
  | 0, buf => ([], buf)
  | fuel + 1, buf =>
    match pop_segment buf with
    | (some s, b) =>
      let r := drainAux fuel b
      (s :: r.1, r.2)
    | (none, _) => ([], buf)

/-- The `while True: seg, buf2 = _pop_segment(buf) …` loop of `llm_worker`. -/
def drainSegments (buf : List Char) : List (List Char) × List Char :=
  drainAux buf.length buf

/-- One delta arriving in `llm_worker`'s streaming loop: empty deltas are
skipped (`if not delta: continue`); otherwise the delta is appended to the
buffer and all poppable segments are enqueued. State: (segments enqueued
so far, current buffer). -/
def feedDelta (st : List (List Char) × List Char) (delta : List Char) :
    List (List Char) × List Char :=
  if delta = [] then st
  else
    let d := drainSegments (st.2 ++ delta)
    (st.1 ++ d.1, d.2)

/-- The whole streaming loop over a finite list of deltas. -/
def llm_drain (deltas : List (List Char)) : List (List Char) × List Char :=
  deltas.foldl feedDelta ([], [])

/-- All segments `llm_worker` enqueues for TTS, including the flushed tail
(`tail = buf.strip(); if tail: await tts_queue.put((seg_id, tail))`). -/
def llm_segments (deltas : List (List Char)) : List (List Char) :=
  let d := llm_drain deltas
  let tail := strip d.2
  if tail = [] then d.1 else d.1 ++ [tail]

/-! ## TTS worker trace (`tts_worker`, ws.py lines 252-298).

We model the trace of control/binary frames the worker sends during the
run in which no cancellation fires and every send succeeds, for one turn.
The synthesizer is a function from segment text to its list of PCM chunks
(`chosen_tts.stream`).  The `audio_begin` metadata fields (mime, format,
sample rate, channels) are irrelevant to the claims and omitted. -/

/-- One on-wire frame of the session, as emitted by `tts_worker`. -/
inductive Event where
  | stateUpdate (turn : Nat) (st : String)
  | audioBegin (turn : Nat)
  | audioEnd (turn : Nat)
  | binary (bytes : List Nat)
  deriving DecidableEq

/-- Embeds `int(n).to_bytes(4, "little")` for `n < 2^32` (Python raises
`OverflowError` beyond; the workers only reach that range after 2^32
turns or frames). -/
def le4 (n : Nat) : List Nat :=
  [n % 256, n / 256 % 256, n / 256 ^ 2 % 256, n / 256 ^ 3 % 256]

/-- The 4-byte ASCII tag `b"AUD0"`. -/
def AUD0_TAG : List Nat := [65, 85, 68, 48]

/-- Embeds `header + chunk` with
`header = b"AUD0" + turn.to_bytes(4,"little") + seq.to_bytes(4,"little")`. -/
def mkFrame (turn seq : Nat) (chunk : List Nat) : List Nat :=
  AUD0_TAG ++ le4 turn ++ le4 seq ++ chunk

/-- Pair each chunk with its sequence number, starting at `seq`
(the `tts_seq += 1` counter). -/
def enumChunks (seq : Nat) : List (List Nat) → List (Nat × List Nat)
  | [] => []
  | c :: cs => (seq, c) :: enumChunks (seq + 1) cs

/-- Embeds the main loop of `tts_worker` over the queued segments:
whitespace-only segments are skipped (`if not seg_text.strip(): continue`);
on the first surviving segment the worker sends `state_update(speaking)`
and `audio_begin` and sets `audio_started`, *before* pulling any chunk
from the synthesizer; then every chunk is sent as an `AUD0` frame with
the incrementing per-turn sequence number.
State: `(audio_started, tts_seq)`; result: (events sent, final state). -/
def ttsRunAux (turn : Nat) (synth : List Char → List (List Nat)) :
    List (List Char) → Bool → Nat → List Event × Bool × Nat
  | [], started, seq => ([], started, seq)
  | seg :: rest, started, seq =>
    if strip seg = [] then ttsRunAux turn synth rest started seq
    else
      let beginEvs : List Event :=
        if started then [] else [Event.stateUpdate turn "speaking", Event.audioBegin turn]
      let chunks := synth seg
      let frames := (enumChunks seq chunks).map fun kc => Event.binary (mkFrame turn kc.1 kc.2)
      let r := ttsRunAux turn synth rest true (seq + chunks.length)
      (beginEvs ++ frames ++ r.1, r.2)

/-- The full uncancelled `tts_worker` run for one turn: the loop over the
queue, then the `finally` clause, which sends `audio_end` exactly when
`audio_started` is set. -/
def ttsRun (turn : Nat) (queue : List (List Char))
    (synth : List Char → List (List Nat)) : List Event :=
  let r := ttsRunAux turn synth queue false 0
  r.1 ++ if r.2.1 then [Event.audioEnd turn] else []

/-- Is this event an `audio_begin`? -/
def isBeginEv : Event → Bool
  | .audioBegin _ => true
  | _ => false

/-- Is this event an `audio_end`? -/
def isEndEv : Event → Bool
  | .audioEnd _ => true
  | _ => false

/-- Is this event a binary `AUD0` frame? -/
def isBinaryEv : Event → Bool
  | .binary _ => true
  | _ => false

/-- The binary frames of a trace, in order. -/
def binariesOf (evs : List Event) : List (List Nat) :=
  evs.filterMap fun e =>
    match e with
    | .binary b => some b
    | _ => none

/-- All PCM chunks the synthesizer yields across the non-whitespace
segments of the queue, in the order `tts_worker` pulls them. -/
def chunksOf (queue : List (List Char)) (synth : List Char → List (List Nat)) :
    List (List Nat) :=
  ((queue.filter fun s => decide (strip s ≠ [])).map synth).flatten

/-! ## Connection handler (`ws_endpoint`, ws.py lines 452-520) -/

/-- A parsed inbound control message, keyed by its `type` field;
`userText` carries the optional `text` payload field. -/
inductive InMsg where
  | userText (text : Option String)
  | interrupt
  | unknown (t : String)
  deriving DecidableEq

/-- An inbound text frame: either valid JSON parsing to a message, or text
that `json.loads` rejects. -/
inductive Raw where
  | valid (m : InMsg)
  | invalid
  deriving DecidableEq

/-- A spawned `run_turn_workflow` task: its turn id and user utterance. -/
structure Spawn where
  turnId : Nat
  utterance : String
  deriving DecidableEq

/-- The observable per-session handler state: the session turn id, the
workflow tasks spawned, the turn ids assigned by the increments, and the
`error` control messages sent. -/
structure HState where
  turnId : Nat
  spawned : List Spawn
  assigned : List Nat
  errors : List String
  deriving DecidableEq

/-- Session state right after `accept`: `SessionState(turn_id=0, …)`. -/
def initState : HState := { turnId := 0, spawned := [], assigned := [], errors := [] }

/-- Embeds one dispatch iteration of `ws_endpoint` on a parsed message:
`user_text` increments the turn id and spawns a workflow with utterance
`msg.get("text", "")`; `interrupt` increments the turn id (cancelling any
active turn); any other type gets an `error` reply.  (The `audio_cancel` /
`state_update` control messages and the metrics bookkeeping these branches
also perform do not bear on the claims and are omitted.) -/
def handleMsg (st : HState) (m : InMsg) : HState :=
  match m with
  | .userText t =>
    let newTurn := st.turnId + 1
    { st with
        turnId := newTurn
        assigned := st.assigned ++ [newTurn]
        spawned := st.spawned ++ [{ turnId := newTurn, utterance := t.getD "" }] }
  | .interrupt =>
    let newTurn := st.turnId + 1
    { st with turnId := newTurn, assigned := st.assigned ++ [newTurn] }
  | .unknown ty =>
    { st with errors := st.errors ++ ["unknown type: " ++ ty] }

/-- The receive loop over a list of already-parsed messages. -/
def runValid (msgs : List InMsg) : HState := msgs.foldl handleMsg initState

/-- Embeds the `while True: raw = await ws.receive_text(); msg = json.loads(raw)`
loop of `ws_endpoint`: on an invalid frame `json.loads` raises
`json.JSONDecodeError`, and the only handler around the loop is
`except WebSocketDisconnect`, so the exception escapes and ends the
session.  The Bool records whether the loop ended that way. -/
def wsLoop (st : HState) : List Raw → HState × Bool
  | [] => (st, false)
  | .invalid :: _ => (st, true)
  | .valid m :: rest => wsLoop (handleMsg st m) rest

/-- Does this message take the `user_text` or `interrupt` branch (the two
that advance the turn id)? -/
def isTurnMsg : InMsg → Bool
  | .userText _ => true
  | .interrupt => true
  | .unknown _ => false

/-! ## Turn metrics (`core/session.py`) -/

/-- A JSON value appearing in a metrics record. -/
inductive JVal where
  | jnull
  | jstr (s : String)
  | jint (n : Int)
  deriving DecidableEq

/-- Embeds the `TurnMetrics` dataclass (session.py): `perf_counter`
timestamps are modelled as exact rationals. -/
structure TurnMetrics where
  session_id : String
  turn_id : Nat
  t0 : ℚ
  t_first_delta : Option ℚ
  t_first_audio : Option ℚ
  t_done : Option ℚ
  t_interrupt_recv : Option ℚ
  t_interrupt_done : Option ℚ
  outcome : String
  err_type : Option String
  err_repr : Option String

/-- Python `round()` (round half to even) on an exact rational. -/
def pyRound (q : ℚ) : Int :=
  let f := ⌊q⌋
  let r : ℚ := q - f
  if r < 1 / 2 then f
  else if 1 / 2 < r then f + 1
  else if f % 2 = 0 then f else f + 1

/-- Embeds the inner helper `ms(a, b)` of `TurnMetrics.to_record`:
`None` when either endpoint is missing, else `int(round((b - a) * 1000))`. -/
def ms (a b : Option ℚ) : Option Int :=
  match a, b with
  | some x, some y => some (pyRound ((y - x) * 1000))
  | _, _ => none

/-- An optional integer as a JSON value. -/
def optInt : Option Int → JVal
  | some n => .jint n
  | none => .jnull

/-- An optional string as a JSON value. -/
def optStr : Option String → JVal
  | some s => .jstr s
  | none => .jnull

/-- Zero-pad to two digits. -/
def pad2 (n : Nat) : String := if n < 10 then "0" ++ toString n else toString n

/-- Zero-pad to three digits. -/
def pad3 (n : Nat) : String :=
  if n < 10 then "00" ++ toString n
  else if n < 100 then "0" ++ toString n
  else toString n

/-- Zero-pad to four digits. -/
def pad4 (n : Nat) : String :=
  if n < 10 then "000" ++ toString n
  else if n < 100 then "00" ++ toString n
  else if n < 1000 then "0" ++ toString n
  else toString n

/-- Embeds `_utc_iso()` (session.py):
`datetime.utcnow().isoformat(timespec="milliseconds") + "Z"`, applied to
the UTC wall-clock components the call reads from the system clock. -/
def utc_iso (y mo d h mi s milli : Nat) : String :=
  pad4 y ++ "-" ++ pad2 mo ++ "-" ++ pad2 d ++ "T" ++ pad2 h ++ ":" ++ pad2 mi ++
    ":" ++ pad2 s ++ "." ++ pad3 milli ++ "Z"

/-- Embeds `TurnMetrics.to_record` (session.py lines 26-43), with the UTC
wall-clock components that `_utc_iso` reads passed explicitly.  The record
is the ordered key/value list of the returned dict. -/
def to_record (m : TurnMetrics) (y mo d h mi s milli : Nat) : List (String × JVal) :=
  [("ts", .jstr (utc_iso y mo d h mi s milli)),
   ("session_id", .jstr m.session_id),
   ("turn_id", .jint m.turn_id),
   ("t_first_delta_ms", optInt (ms (some m.t0) m.t_first_delta)),
   ("t_first_audio_ms", optInt (ms (some m.t0) m.t_first_audio)),
   ("t_total_ms", optInt (ms (some m.t0) m.t_done)),
   ("t_interrupt_ms", optInt (ms m.t_interrupt_recv m.t_interrupt_done)),
   ("outcome", .jstr m.outcome),
   ("err_type", optStr m.err_type),
   ("err", optStr m.err_repr)]

/-! ## Metrics persistence (`append_metrics` / `_append_line`, ws.py lines 34-44) -/

/-- Outcome of a Python call: normal return or a raised exception. -/
inductive PyRes (α : Type) where
  | ok (a : α)
  | exn (msg : String)
  deriving DecidableEq

/-- Embeds `append_metrics(record)`:
`try: line = json.dumps(record); await asyncio.to_thread(_append_line, path, line)`
`except Exception: pass`.  `serialize` is the outcome of `json.dumps`,
`write` the outcome of `_append_line` on a given line, `file` the log file
contents (a line list).  Result: (what the call raises, the frames it sends
on the websocket, the resulting log file). -/
def append_metrics (serialize : PyRes String) (write : String → PyRes Unit)
    (file : List String) : PyRes Unit × List Event × List String :=
  match serialize with
  | .exn _ => (.ok (), [], file)
  | .ok line =>
    match write line with
    | .exn _ => (.ok (), [], file)
    | .ok _ => (.ok (), [], file ++ [line])

/-! ## Segmenter lemmas -/

theorem findFrom_eq_earliestFrom (p : Char → Bool) (buf : List Char) (start : Nat) :
    findFrom p buf start = earliestFrom p buf start := by
  induction buf generalizing start with
  | nil => simp [findFrom, earliestFrom]
  | cons c cs ih =>
    cases start with
    | zero =>
      simp only [findFrom, earliestFrom, List.length_cons, List.range_succ_eq_map,
        List.find?_cons, List.find?_map]
      simp only [Nat.zero_le, decide_True, Bool.true_and, List.getElem?_cons_zero,
        Option.any_some, decide_eq_true_eq]
      by_cases hc : p c
      · simp [hc]
      · simp [hc, ih 0, earliestFrom, Function.comp_def, Nat.succ_eq_add_one]
    | succ s =>
      simp only [findFrom, earliestFrom, List.length_cons, List.range_succ_eq_map,
        List.find?_cons, List.find?_map]
      simp only [List.getElem?_cons_zero, Option.any_some, Nat.not_succ_le_zero,
        decide_False, Bool.false_and, if_false]
      simp [ih s, earliestFrom, Function.comp_def, Nat.succ_eq_add_one,
        Nat.add_le_add_iff_right]

/-- Every cut `_pop_segment` chooses removes at least one character, and it
only ever cuts a buffer that reached the soft minimum. -/
theorem pop_cut_pos (buf : List Char) (k : Nat) (h : pop_cut buf = some k) :
    0 < k ∧ SOFT_MIN_CHARS ≤ buf.length := by
  simp only [pop_cut] at h
  by_cases h1 : buf.length < SOFT_MIN_CHARS
  · rw [if_pos h1] at h
    exact absurd h (by simp)
  · rw [if_neg h1] at h
    refine ⟨?_, by omega⟩
    rcases hfb : (if MIN_CHARS ≤ buf.length then find_boundary buf (MIN_CHARS - 1) else none)
        with _ | i
    · simp only [hfb] at h
      rcases hfb2 : find_boundary buf (SOFT_MIN_CHARS - 1) with _ | i2
      · rw [hfb2] at h
        by_cases h4 : MAX_CHARS ≤ buf.length
        · rw [if_pos h4] at h
          simp only [Option.some.injEq] at h
          have hm : (0:Nat) < MAX_CHARS := by decide
          omega
        · rw [if_neg h4] at h
          simp at h
      · simp only [hfb2] at h
        by_cases h3 : (SOFT_MIN_CHARS ≤ i2 + 1 && i2 + 1 < MIN_CHARS) = true
        · rw [if_pos h3] at h
          simp only [Option.some.injEq] at h
          omega
        · rw [if_neg h3] at h
          by_cases h4 : MAX_CHARS ≤ buf.length
          · rw [if_pos h4] at h
            simp only [Option.some.injEq] at h
            have hm : (0:Nat) < MAX_CHARS := by decide
            omega
          · rw [if_neg h4] at h
            simp at h
    · simp only [hfb, Option.some.injEq] at h
      omega

/-- When `_pop_segment` produces a segment, segment ++ rest = buffer. -/
theorem pop_segment_eq_some {buf s b : List Char}
    (h : pop_segment buf = (some s, b)) : s ++ b = buf := by
  unfold pop_segment at h
  cases hc : pop_cut buf with
  | none => rw [hc] at h; simp at h
  | some k =>
    rw [hc] at h
    simp only [Prod.mk.injEq, Option.some.injEq] at h
    rw [← h.1, ← h.2]
    exact List.take_append_drop k buf

/-- When `_pop_segment` produces a segment, the rest is strictly shorter. -/
theorem pop_segment_rest_lt {buf s b : List Char}
    (h : pop_segment buf = (some s, b)) : b.length < buf.length := by
  unfold pop_segment at h
  cases hc : pop_cut buf with
  | none => rw [hc] at h; simp at h
  | some k =>
    rw [hc] at h
    simp only [Prod.mk.injEq, Option.some.injEq] at h
    obtain ⟨hpos, hlen⟩ := pop_cut_pos buf k hc
    rw [← h.2, List.length_drop]
    have hn : 0 < buf.length := by
      have hs : (0:Nat) < SOFT_MIN_CHARS := by decide
      omega
    omega

/-- The drain loop never loses text: popped segments ++ rest = input. -/
theorem drainAux_concat (fuel : Nat) (buf : List Char) :
    (drainAux fuel buf).1.flatten ++ (drainAux fuel buf).2 = buf := by
  induction fuel generalizing buf with
  | zero => simp [drainAux]
  | succ n ih =>
    unfold drainAux
    cases hp : pop_segment buf with
    | mk seg rest =>
      cases seg with
      | none => simp
      | some s =>
        simp only [List.flatten_cons, List.append_assoc]
        rw [ih rest]
        exact pop_segment_eq_some hp

/-- Fuel adequacy: with fuel `≥ buf.length` the drain loop runs until
`_pop_segment` declines, exactly like the unbounded Python loop. -/
theorem drainAux_complete (fuel : Nat) (buf : List Char) (hf : buf.length ≤ fuel) :
    (pop_segment ((drainAux fuel buf).2)).1 = none := by
  induction fuel generalizing buf with
  | zero =>
    have hb : buf = [] := List.length_eq_zero.mp (by omega)
    subst hb
    simp [drainAux, pop_segment, pop_cut, SOFT_MIN_CHARS]
  | succ n ih =>
    unfold drainAux
    cases hp : pop_segment buf with
    | mk seg rest =>
      cases seg with
      | none =>
        simp [hp]
      | some s =>
        have hlt := pop_segment_rest_lt hp
        simpa using ih rest (by omega)

/-- `drainSegments` never loses text. -/
theorem drainSegments_concat (buf : List Char) :
    (drainSegments buf).1.flatten ++ (drainSegments buf).2 = buf :=
  drainAux_concat buf.length buf

/-- One delta step preserves the text: enqueued ++ buffer grows by the delta. -/
theorem feedDelta_concat (st : List (List Char) × List Char) (delta : List Char) :
    (feedDelta st delta).1.flatten ++ (feedDelta st delta).2 =
      st.1.flatten ++ st.2 ++ delta := by
  unfold feedDelta
  by_cases hd : delta = []
  · simp [hd]
  · simp only [hd, if_false, List.flatten_append, List.append_assoc]
    rw [drainSegments_concat (st.2 ++ delta)]

/-- Invariant of the whole streaming loop. -/
theorem llm_drain_concat_aux (deltas : List (List Char))
    (st : List (List Char) × List Char) :
    (deltas.foldl feedDelta st).1.flatten ++ (deltas.foldl feedDelta st).2 =
      st.1.flatten ++ st.2 ++ deltas.flatten := by
  induction deltas generalizing st with
  | nil => simp
  | cons d ds ih =>
    simp only [List.foldl_cons, List.flatten_cons]
    rw [ih (feedDelta st d), feedDelta_concat]
    simp [List.append_assoc]

/-- The popped segments plus the final buffer reconstruct the full text. -/
theorem llm_drain_concat (deltas : List (List Char)) :
    (llm_drain deltas).1.flatten ++ (llm_drain deltas).2 = deltas.flatten := by
  simpa [llm_drain] using llm_drain_concat_aux deltas ([], [])

/-! ## TTS worker lemmas -/

theorem ttsRunAux_started (turn : Nat) (synth : List Char → List (List Nat))
    (queue : List (List Char)) (started : Bool) (seq : Nat) :
    (ttsRunAux turn synth queue started seq).2.1 =
      (started || queue.any fun s => decide (strip s ≠ [])) := by
  induction queue generalizing started seq with
  | nil => simp [ttsRunAux]
  | cons seg rest ih =>
    by_cases hseg : strip seg = []
    · simp [ttsRunAux, hseg, ih]
    · simp [ttsRunAux, hseg, ih]

theorem ttsRunAux_countBegin (turn : Nat) (synth : List Char → List (List Nat))
    (queue : List (List Char)) (started : Bool) (seq : Nat) :
    (ttsRunAux turn synth queue started seq).1.countP isBeginEv =
      if started then 0
      else (if queue.any (fun s => decide (strip s ≠ [])) then 1 else 0) := by
  induction queue generalizing started seq with
  | nil => cases started <;> simp [ttsRunAux]
  | cons seg rest ih =>
    by_cases hseg : strip seg = []
    · simp [ttsRunAux, hseg, ih]
    · simp only [ttsRunAux, hseg, if_false, List.countP_append, ih, List.any_cons]
      have hframes : ((enumChunks seq (synth seg)).map fun kc =>
          Event.binary (mkFrame turn kc.1 kc.2)).countP isBeginEv = 0 := by
        rw [List.countP_eq_zero]
        intro e he
        obtain ⟨kc, _, rfl⟩ := List.mem_map.mp he
        simp [isBeginEv]
      cases started <;> simp [hframes, hseg, List.countP_cons, isBeginEv]

theorem ttsRunAux_countEnd (turn : Nat) (synth : List Char → List (List Nat))
    (queue : List (List Char)) (started : Bool) (seq : Nat) :
    (ttsRunAux turn synth queue started seq).1.countP isEndEv = 0 := by
  induction queue generalizing started seq with
  | nil => simp [ttsRunAux]
  | cons seg rest ih =>
    by_cases hseg : strip seg = []
    · simp [ttsRunAux, hseg, ih]
    · simp only [ttsRunAux, hseg, if_false, List.countP_append, ih]
      have hframes : ((enumChunks seq (synth seg)).map fun kc =>
          Event.binary (mkFrame turn kc.1 kc.2)).countP isEndEv = 0 := by
        rw [List.countP_eq_zero]
        intro e he
        obtain ⟨kc, _, rfl⟩ := List.mem_map.mp he
        simp [isEndEv]
      cases started <;> simp [hframes, List.countP_cons, isEndEv]

theorem enumChunks_append (s : Nat) (a b : List (List Nat)) :
    enumChunks s (a ++ b) = enumChunks s a ++ enumChunks (s + a.length) b := by
  induction a generalizing s with
  | nil => simp [enumChunks]
  | cons c as ih =>
    have h : s + 1 + as.length = s + (as.length + 1) := by omega
    simp only [List.cons_append, enumChunks, List.append_eq, ih, List.length_cons, h]

theorem binariesOf_map_binary (l : List (Nat × List Nat)) (f : Nat × List Nat → List Nat) :
    binariesOf (l.map fun kc => Event.binary (f kc)) = l.map f := by
  induction l with
  | nil => rfl
  | cons x xs ih =>
    simp only [List.map_cons, binariesOf, List.filterMap_cons] at *
    rw [ih]

theorem ttsRunAux_binaries (turn : Nat) (synth : List Char → List (List Nat))
    (queue : List (List Char)) (started : Bool) (seq : Nat) :
    binariesOf (ttsRunAux turn synth queue started seq).1 =
      (enumChunks seq (chunksOf queue synth)).map fun kc => mkFrame turn kc.1 kc.2 := by
  induction queue generalizing started seq with
  | nil => simp [ttsRunAux, chunksOf, binariesOf, enumChunks]
  | cons seg rest ih =>
    by_cases hseg : strip seg = []
    · simp [ttsRunAux, hseg, ih, chunksOf]
    · have hchunks : chunksOf (seg :: rest) synth = synth seg ++ chunksOf rest synth := by
        simp [chunksOf, hseg]
      have hbeg : binariesOf
          (if started then []
           else [Event.stateUpdate turn "speaking", Event.audioBegin turn]) = [] := by
        cases started <;> simp [binariesOf]
      simp only [ttsRunAux, hseg, if_false, binariesOf, List.filterMap_append]
      rw [← binariesOf, ← binariesOf, ← binariesOf, hbeg, binariesOf_map_binary, ih,
        hchunks, enumChunks_append, List.map_append]
      simp

/-- Bridge between the Bool-valued `List.any` test the worker state uses and
the propositional "some queued segment is non-whitespace". -/
theorem any_nonws_iff (queue : List (List Char)) :
    (queue.any fun s => decide (strip s ≠ [])) = true ↔ ∃ s ∈ queue, strip s ≠ [] := by
  rw [List.any_eq_true]
  constructor
  · rintro ⟨s, hs, hd⟩
    exact ⟨s, hs, by simpa using hd⟩
  · rintro ⟨s, hs, hd⟩
    exact ⟨s, hs, by simpa⟩

/-- `audio_end` count of an uncancelled turn: one iff some queued segment
is non-whitespace (the `finally` clause fires iff `audio_started`). -/
theorem ttsRun_countEnd (turn : Nat) (queue : List (List Char))
    (synth : List Char → List (List Nat)) :
    (ttsRun turn queue synth).countP isEndEv =
      if ∃ s ∈ queue, strip s ≠ [] then 1 else 0 := by
  unfold ttsRun
  simp only [List.countP_append, ttsRunAux_countEnd, ttsRunAux_started, Bool.false_or]
  by_cases h : ∃ s ∈ queue, strip s ≠ []
  · have ha := (any_nonws_iff queue).mpr h
    simp [ha, h, isEndEv]
  · have ha : (queue.any fun s => decide (strip s ≠ [])) = false := by
      rw [← Bool.not_eq_true, any_nonws_iff]
      exact h
    simp [ha, h]

/-! ## Connection handler lemmas -/

/-- Fold invariant of the receive loop: the turn id grows by the number of
`user_text`/`interrupt` messages, and the assigned turn ids are the
consecutive integers that follow the starting turn id. -/
theorem runValid_aux (msgs : List InMsg) (st : HState) :
    (msgs.foldl handleMsg st).turnId = st.turnId + msgs.countP isTurnMsg ∧
      (msgs.foldl handleMsg st).assigned =
        st.assigned ++ List.range' (st.turnId + 1) (msgs.countP isTurnMsg) := by
  induction msgs generalizing st with
  | nil => simp
  | cons m rest ih =>
    cases m with
    | userText t =>
      obtain ⟨h1, h2⟩ := ih (handleMsg st (.userText t))
      refine ⟨?_, ?_⟩
      · simp only [List.foldl_cons] at h1 ⊢
        rw [h1]
        simp [handleMsg, List.countP_cons, isTurnMsg]
        omega
      · simp only [List.foldl_cons] at h2 ⊢
        rw [h2]
        simp only [handleMsg, List.countP_cons, isTurnMsg, decide_True, if_true]
        rw [List.range'_succ]
        simp [List.append_assoc]
    | interrupt =>
      obtain ⟨h1, h2⟩ := ih (handleMsg st .interrupt)
      refine ⟨?_, ?_⟩
      · simp only [List.foldl_cons] at h1 ⊢
        rw [h1]
        simp [handleMsg, List.countP_cons, isTurnMsg]
        omega
      · simp only [List.foldl_cons] at h2 ⊢
        rw [h2]
        simp only [handleMsg, List.countP_cons, isTurnMsg, decide_True, if_true]
        rw [List.range'_succ]
        simp [List.append_assoc]
    | unknown ty =>
      obtain ⟨h1, h2⟩ := ih (handleMsg st (.unknown ty))
      refine ⟨?_, ?_⟩
      · simp only [List.foldl_cons] at h1 ⊢
        rw [h1]
        simp [handleMsg, List.countP_cons, isTurnMsg]
      · simp only [List.foldl_cons] at h2 ⊢
        rw [h2]
        simp [handleMsg, List.countP_cons, isTurnMsg]

/-! ## Metrics lemmas -/

/-- A `t0`-anchored millisecond delta serializes to JSON null exactly when
the phase timestamp is missing. -/
theorem optInt_ms_null_iff (a : ℚ) (b : Option ℚ) :
    optInt (ms (some a) b) = JVal.jnull ↔ b = none := by
  cases b <;> simp [ms, optInt]

/-! ## Claims -/

/-- C5 (amended): `_pop_segment` implements the spec's five-rule procedure
with thresholds `SOFT_MIN=30`, `MIN=70`, `MAX=260`, but over the
punctuation set `{。, ., !, ！, ?, ？}` — without the newline the spec
includes (see the counterexample). -/
theorem claim_C5 (buf : List Char) :
    pop_segment buf = pop_segment_spec isEndPunct buf := by
  simp only [pop_segment, pop_segment_spec, pop_cut, pop_cut_spec, find_boundary,
    findFrom_eq_earliestFrom]

/-- C5 counterexample: on a 70-character buffer whose only end punctuation
is a newline at index 69, the spec's procedure (punctuation set including
newline) cuts at index 69 while `_pop_segment` produces no segment. -/
theorem claim_C5_cex :
    pop_segment (List.replicate 69 'a' ++ ['\n']) ≠
      pop_segment_spec specEndPunct (List.replicate 69 'a' ++ ['\n']) := by
  decide

/-- C4 (amended): the segments `llm_worker` enqueues (popped segments plus
the flushed tail) concatenate to the full generated text *with the
unsegmented remainder `str.strip()`-ed*: popped segments ++ remainder
reconstruct the full text exactly, the enqueued segments concatenate to
popped ++ strip(remainder), and equality with the full text holds whenever
the remainder carries no leading/trailing whitespace. -/
theorem claim_C4 (deltas : List (List Char)) :
    (llm_drain deltas).1.flatten ++ (llm_drain deltas).2 = deltas.flatten ∧
      (llm_segments deltas).flatten =
        (llm_drain deltas).1.flatten ++ strip (llm_drain deltas).2 ∧
      (strip (llm_drain deltas).2 = (llm_drain deltas).2 →
        (llm_segments deltas).flatten = deltas.flatten) := by
  have hconcat := llm_drain_concat deltas
  have hsplit : (llm_segments deltas).flatten =
      (llm_drain deltas).1.flatten ++ strip (llm_drain deltas).2 := by
    unfold llm_segments
    by_cases h : strip (llm_drain deltas).2 = []
    · simp [h]
    · simp [h]
  exact ⟨hconcat, hsplit, fun hs => by rw [hsplit, hs, hconcat]⟩

/-- C4 counterexample: for the delta stream `["hi "]` the only enqueued
segment is the stripped tail `"hi"`, so the concatenation of enqueued
segments is not the full text `"hi "`. -/
theorem claim_C4_cex :
    (llm_segments [['h', 'i', ' ']]).flatten ≠
      ([['h', 'i', ' ']] : List (List Char)).flatten := by
  decide

/-- C4 witness: on the whitespace-free stream `["ok."]` the implication of
`claim_C4` applies and the concatenation is exact. -/
theorem claim_C4_wit :
    strip (llm_drain [['o', 'k', '.']]).2 = (llm_drain [['o', 'k', '.']]).2 ∧
      (llm_segments [['o', 'k', '.']]).flatten =
        ([['o', 'k', '.']] : List (List Char)).flatten :=
  ⟨by decide, (claim_C4 [['o', 'k', '.']]).2.2 (by decide)⟩

/-- C1 (amended): in an uncancelled `tts_worker` run, exactly one
`audio_begin` is sent iff some queued segment is non-whitespace; the send
happens on dequeuing that first segment, *before* any PCM chunk is pulled,
so a synthesizer yielding zero chunks does not prevent it (see the
counterexample). -/
theorem claim_C1 (turn : Nat) (queue : List (List Char))
    (synth : List Char → List (List Nat)) :
    (ttsRun turn queue synth).countP isBeginEv =
      if ∃ s ∈ queue, strip s ≠ [] then 1 else 0 := by
  unfold ttsRun
  simp only [List.countP_append, ttsRunAux_countBegin]
  have hend : ∀ b : Bool,
      (if b then [Event.audioEnd turn] else []).countP isBeginEv = 0 := by
    intro b; cases b <;> simp [isBeginEv]
  rw [hend]
  by_cases h : ∃ s ∈ queue, strip s ≠ []
  · have ha : (queue.any fun s => decide (strip s ≠ [])) = true := by
      rw [List.any_eq_true]
      obtain ⟨s, hs, hns⟩ := h
      exact ⟨s, hs, by simpa⟩
    simp [ha, h]
  · have ha : (queue.any fun s => decide (strip s ≠ [])) = false := by
      rw [List.any_eq_false]
      intro s hs
      by_contra hc
      exact h ⟨s, hs, by simpa using hc⟩
    simp [ha, h]

/-- C1 counterexample: a turn with the single segment `"hello"` whose
synthesizer yields zero chunks still gets `audio_begin` although no PCM
chunk (hence no binary frame) was ever obtained — contradicting the claim
that `audio_begin` is only sent after a non-empty PCM chunk. -/
theorem claim_C1_cex :
    Event.audioBegin 1 ∈ ttsRun 1 [['h', 'e', 'l', 'l', 'o']] (fun _ => []) ∧
      (ttsRun 1 [['h', 'e', 'l', 'l', 'o']] (fun _ => [])).countP isBinaryEv = 0 := by
  constructor <;> decide

/-- C3 (amended): `audio_end` is emitted at most once per turn, and it is
emitted exactly when `audio_begin` was (i.e. when some non-whitespace
segment was dequeued) — which does *not* require that any `AUD0` binary
frame was sent (see the counterexample). -/
theorem claim_C3 (turn : Nat) (queue : List (List Char))
    (synth : List Char → List (List Nat)) :
    (ttsRun turn queue synth).countP isEndEv ≤ 1 ∧
      (ttsRun turn queue synth).countP isEndEv =
        (ttsRun turn queue synth).countP isBeginEv := by
  have hkey := ttsRun_countEnd turn queue synth
  have hbeg : (ttsRun turn queue synth).countP isBeginEv =
      if ∃ s ∈ queue, strip s ≠ [] then 1 else 0 := by
    unfold ttsRun
    simp only [List.countP_append, ttsRunAux_countBegin]
    have hend : ∀ b : Bool,
        (if b then [Event.audioEnd turn] else []).countP isBeginEv = 0 := by
      intro b; cases b <;> simp [isBeginEv]
    rw [hend]
    by_cases h : ∃ s ∈ queue, strip s ≠ []
    · have ha := (any_nonws_iff queue).mpr h
      simp [ha, h]
    · have ha : (queue.any fun s => decide (strip s ≠ [])) = false := by
        rw [← Bool.not_eq_true, any_nonws_iff]
        exact h
      simp [ha, h]
  constructor
  · rw [hkey]
    split <;> omega
  · rw [hkey, hbeg]

/-- C3 counterexample: a turn whose synthesizer yields zero chunks for its
one segment emits `audio_end` although no `AUD0` frame was emitted —
contradicting "only if at least one `AUD0` was emitted earlier". -/
theorem claim_C3_cex :
    Event.audioEnd 2 ∈ ttsRun 2 [['z', 'e', 'r', 'o', '!']] (fun _ => []) ∧
      (ttsRun 2 [['z', 'e', 'r', 'o', '!']] (fun _ => [])).countP isBinaryEv = 0 := by
  constructor <;> decide

/-- C7: every binary frame of an uncancelled turn is
`"AUD0" ‖ turn (4-byte LE) ‖ seq (4-byte LE) ‖ chunk`, and the sequence
numbers enumerate the transmitted chunks starting at 0, increasing by one
per frame (`enumChunks 0`).  The bounds keep `le4` within the domain where
it agrees with Python's `int.to_bytes(4, "little")`. -/
theorem claim_C7 (turn : Nat) (queue : List (List Char))
    (synth : List Char → List (List Nat))
    (_hturn : turn < 2 ^ 32) (_hseq : (chunksOf queue synth).length ≤ 2 ^ 32) :
    binariesOf (ttsRun turn queue synth) =
      (enumChunks 0 (chunksOf queue synth)).map fun kc => mkFrame turn kc.1 kc.2 := by
  unfold ttsRun
  simp only [binariesOf, List.filterMap_append]
  rw [← binariesOf, ← binariesOf, ttsRunAux_binaries]
  have hend : ∀ b : Bool,
      binariesOf (if b then [Event.audioEnd turn] else []) = [] := by
    intro b; cases b <;> simp [binariesOf]
  rw [hend, List.append_nil]

/-- C7 witness: a concrete turn with two chunks produces exactly the two
tagged frames with sequence numbers 0 and 1. -/
theorem claim_C7_wit :
    binariesOf (ttsRun 1 [['h', 'i']] (fun _ => [[7], [8, 9]])) =
      (enumChunks 0 (chunksOf [['h', 'i']] (fun _ => [[7], [8, 9]]))).map
        fun kc => mkFrame 1 kc.1 kc.2 :=
  claim_C7 1 [['h', 'i']] (fun _ => [[7], [8, 9]]) (by decide) (by decide)

/-- C6: per connection the turn id starts at 0, is incremented by exactly
one on each `user_text` or `interrupt`, and the ids assigned to turns are
the consecutive integers `1, 2, …` — strictly increasing and never
reused. -/
theorem claim_C6 (msgs : List InMsg) :
    (runValid msgs).turnId = msgs.countP isTurnMsg ∧
      (runValid msgs).assigned = List.range' 1 (msgs.countP isTurnMsg) ∧
      (runValid msgs).assigned.Nodup := by
  obtain ⟨h1, h2⟩ := runValid_aux msgs initState
  refine ⟨by simpa [runValid, initState] using h1,
    by simpa [runValid, initState] using h2, ?_⟩
  have hn := List.nodup_range' 1 (msgs.countP isTurnMsg)
  rw [show (runValid msgs).assigned = List.range' 1 (msgs.countP isTurnMsg) from
    by simpa [runValid, initState] using h2]
  exact hn

/-- C9: a `user_text` message without a `text` field still increments the
turn id and spawns a workflow whose utterance is the empty string
(`msg.get("text", "")`), and sends no `error` reply. -/
theorem claim_C9 (st : HState) :
    handleMsg st (InMsg.userText none) =
        { st with
            turnId := st.turnId + 1
            assigned := st.assigned ++ [st.turnId + 1]
            spawned := st.spawned ++ [{ turnId := st.turnId + 1, utterance := "" }] } ∧
      (handleMsg st (InMsg.userText none)).errors = st.errors :=
  ⟨rfl, rfl⟩

/-- C2 (amended): an invalid-JSON text frame makes `json.loads` raise, and
since the loop only handles `WebSocketDisconnect`, the session's receive
loop terminates at the first invalid frame: the state is whatever the
preceding valid messages produced, no `error` reply is added, and later
frames are never processed. -/
theorem claim_C2 (st : HState) (pre post : List Raw) (hpre : Raw.invalid ∉ pre) :
    wsLoop st (pre ++ Raw.invalid :: post) = ((wsLoop st pre).1, true) := by
  induction pre generalizing st with
  | nil => rfl
  | cons r rs ih =>
    cases r with
    | invalid => exact absurd (List.mem_cons_self _ _) hpre
    | valid m =>
      have hrs : Raw.invalid ∉ rs := fun hm => hpre (List.mem_cons_of_mem _ hm)
      simpa [wsLoop] using ih (handleMsg st m) hrs

/-- C2 witness: a valid `interrupt` followed by an invalid frame ends the
loop by the uncaught exception, with the state of the valid prefix. -/
theorem claim_C2_wit :
    wsLoop initState [Raw.valid InMsg.interrupt, Raw.invalid] =
      ((wsLoop initState [Raw.valid InMsg.interrupt]).1, true) :=
  claim_C2 initState [Raw.valid InMsg.interrupt] [] (by decide)

/-- C2 counterexample: on `[invalid, interrupt]` the session crashes at the
invalid frame — no `error` reply is recorded and the subsequent `interrupt`
is never processed (turn id stays 0) — contradicting the claim that a JSON
parse error yields an `error` reply and processing continues. -/
theorem claim_C2_cex :
    (wsLoop initState [Raw.invalid, Raw.valid InMsg.interrupt]).2 = true ∧
      (wsLoop initState [Raw.invalid, Raw.valid InMsg.interrupt]).1.errors = [] ∧
      (wsLoop initState [Raw.invalid, Raw.valid InMsg.interrupt]).1.turnId = 0 :=
  ⟨rfl, rfl, rfl⟩

/-- C8 (amended): `TurnMetrics.to_record` carries the ISO-8601 UTC
timestamp, session id and turn id, the millisecond delta fields under the
keys `t_first_delta_ms`, `t_first_audio_ms`, `t_total_ms`,
`t_interrupt_ms` (the spec's un-prefixed names are absent — see the
counterexample), with `t_interrupt_ms` measured from `t_interrupt_recv` to
`t_interrupt_done`, the outcome and the optional error fields; each delta
field is JSON null exactly when its phase timestamp is missing. -/
theorem claim_C8 (m : TurnMetrics) (y mo d h mi s milli : Nat) :
    (to_record m y mo d h mi s milli).lookup "ts" =
        some (.jstr (utc_iso y mo d h mi s milli)) ∧
      (to_record m y mo d h mi s milli).lookup "session_id" = some (.jstr m.session_id) ∧
      (to_record m y mo d h mi s milli).lookup "turn_id" = some (.jint m.turn_id) ∧
      (to_record m y mo d h mi s milli).lookup "t_first_delta_ms" =
        some (optInt (ms (some m.t0) m.t_first_delta)) ∧
      (to_record m y mo d h mi s milli).lookup "t_first_audio_ms" =
        some (optInt (ms (some m.t0) m.t_first_audio)) ∧
      (to_record m y mo d h mi s milli).lookup "t_total_ms" =
        some (optInt (ms (some m.t0) m.t_done)) ∧
      (to_record m y mo d h mi s milli).lookup "t_interrupt_ms" =
        some (optInt (ms m.t_interrupt_recv m.t_interrupt_done)) ∧
      (to_record m y mo d h mi s milli).lookup "outcome" = some (.jstr m.outcome) ∧
      (to_record m y mo d h mi s milli).lookup "err_type" = some (optStr m.err_type) ∧
      (to_record m y mo d h mi s milli).lookup "err" = some (optStr m.err_repr) ∧
      ((to_record m y mo d h mi s milli).lookup "t_first_delta_ms" = some JVal.jnull ↔
        m.t_first_delta = none) ∧
      ((to_record m y mo d h mi s milli).lookup "t_first_audio_ms" = some JVal.jnull ↔
        m.t_first_audio = none) ∧
      ((to_record m y mo d h mi s milli).lookup "t_total_ms" = some JVal.jnull ↔
        m.t_done = none) ∧
      ((to_record m y mo d h mi s milli).lookup "t_interrupt_ms" = some JVal.jnull ↔
        (m.t_interrupt_recv = none ∨ m.t_interrupt_done = none)) ∧
      (to_record m y mo d h mi s milli).lookup "first_delta_ms" = none ∧
      (to_record m y mo d h mi s milli).lookup "interrupt_ms" = none := by
  refine ⟨rfl, rfl, rfl, rfl, rfl, rfl, rfl, rfl, rfl, rfl, ?_, ?_, ?_, ?_, rfl, rfl⟩
  · show some (optInt (ms (some m.t0) m.t_first_delta)) = some JVal.jnull ↔ _
    rw [Option.some_inj]
    exact optInt_ms_null_iff m.t0 m.t_first_delta
  · show some (optInt (ms (some m.t0) m.t_first_audio)) = some JVal.jnull ↔ _
    rw [Option.some_inj]
    exact optInt_ms_null_iff m.t0 m.t_first_audio
  · show some (optInt (ms (some m.t0) m.t_done)) = some JVal.jnull ↔ _
    rw [Option.some_inj]
    exact optInt_ms_null_iff m.t0 m.t_done
  · show some (optInt (ms m.t_interrupt_recv m.t_interrupt_done)) = some JVal.jnull ↔ _
    rw [Option.some_inj]
    cases m.t_interrupt_recv <;> cases m.t_interrupt_done <;> simp [ms, optInt]

/-- C8 counterexample: a concrete metrics record has no fields named
`first_delta_ms` / `interrupt_ms`; the delta fields are keyed
`t_first_delta_ms` / `t_interrupt_ms` instead. -/
theorem claim_C8_cex :
    (to_record ⟨"s", 1, 0, none, none, none, none, none, "ok", none, none⟩
        2025 10 12 0 0 0 0).lookup "first_delta_ms" = none ∧
      (to_record ⟨"s", 1, 0, none, none, none, none, none, "ok", none, none⟩
        2025 10 12 0 0 0 0).lookup "interrupt_ms" = none ∧
      (to_record ⟨"s", 1, 0, none, none, none, none, none, "ok", none, none⟩
        2025 10 12 0 0 0 0).lookup "t_first_delta_ms" = some JVal.jnull ∧
      (to_record ⟨"s", 1, 0, none, none, none, none, none, "ok", none, none⟩
        2025 10 12 0 0 0 0).lookup "t_interrupt_ms" = some JVal.jnull := by
  exact ⟨rfl, rfl, rfl, rfl⟩

/-- C10: `append_metrics` swallows every exception of JSON serialization
and of the file append (`except Exception: pass`): it always returns
normally and sends no frame on the websocket, so a metrics-persistence
failure can neither change the turn's frames nor end the session. -/
theorem claim_C10 (serialize : PyRes String) (write : String → PyRes Unit)
    (file : List String) :
    (append_metrics serialize write file).1 = PyRes.ok () ∧
      (append_metrics serialize write file).2.1 = [] := by
  cases serialize with
  | exn e => exact ⟨rfl, rfl⟩
  | ok line => cases h : write line <;> simp [append_metrics, h]

end WS
